import Mathlib

/-!
Verification development for the YEH event-delegation engine.

The DOM tree is modelled synthetically: an element node is identified by its
path of sibling indices up to the root element (head of the list is the
node's index among its parent's children), and the `document` / `window`
sentinels are separate constructors.  Element attributes (tag, id, class)
are supplied by a `Tree` assignment from paths to data, mirroring the fact
that the host environment owns the tree.  All definitions below are
transcribed from the source of `yeh.js`.
-/

namespace YEH

/-- A JavaScript numeric distance: a natural number or `Infinity`. -/
inductive Dist where
  | fin (n : Nat)
  | inf
deriving DecidableEq, Repr

/-- JavaScript `<` restricted to the distance values the engine produces. -/
def Dist.jsLt : Dist → Dist → Bool
  | .fin a, .fin b => decide (a < b)
  | .fin _, .inf => true
  | .inf, _ => false

/-- A node of the host tree: the `document` and `window` sentinels, or an
element identified by its path of sibling indices up to the root element. -/
inductive DomNode where
  | document
  | window
  | elem (path : List Nat)
deriving DecidableEq, Repr

/-- `parentNode` of the host tree: elements chain up to the root element,
whose parent is `document`; `document` and `window` have no parent. -/
def parentNode : DomNode → Option DomNode
  | .document => none
  | .window => none
  | .elem [] => some .document
  | .elem (_ :: p) => some (.elem p)

/-- The `while (current && current !== container)` loop of
`calculateDOMDistance`, restricted to an element chain: walk `parentNode`
links, counting hops, stopping at `container` or when the chain runs out
past `document` (the final hop to `null` is counted, exactly as the source
increments before re-testing the loop condition). -/
def domWalkSteps (container : DomNode) : List Nat → Nat → Nat
  | [], distance =>
    if DomNode.elem [] = container then distance
    else if DomNode.document = container then distance + 1
    else distance + 2
  | i :: p, distance =>
    if DomNode.elem (i :: p) = container then distance
    else domWalkSteps container p (distance + 1)

/-- The full `while` loop of `calculateDOMDistance`, for any start node:
`document` and `window` have no parent, so a non-matching start exits the
loop after the single counted hop to `null`. -/
def domWalk (container current : DomNode) (distance : Nat) : Nat :=
  match current with
  | .document => if DomNode.document = container then distance else distance + 1
  | .window => if DomNode.window = container then distance else distance + 1
  | .elem p => domWalkSteps container p distance

/-- Host `container.contains(target)`: ancestor-or-self containment, which
for path-identified elements is the suffix relation on paths; the sentinels
never appear here because the source dispatches on them first. -/
def domContains (container target : DomNode) : Bool :=
  match container, target with
  | .elem cp, .elem tp => cp.isSuffixOf tp
  | _, _ => false

/-- `YEH.calculateDOMDistance` (yeh.js lines 364-382). -/
def calculateDOMDistance (target container : DomNode) : Dist :=
  if container = .document || container = .window then .fin 1000
  else if !(domContains container target) then .inf
  else .fin (domWalk container target 0)

/-- Attributes of an element relevant to `getElementKey`. -/
structure ElemData where
  tag : String
  idAttr : String
  className : String

/-- The host tree's attribute assignment: every element path carries its
tag, id and class data. -/
abbrev Tree := List Nat → ElemData

/-- ASCII lower-casing of a tag name (kernel-computable transcription of
`String.toLowerCase`). -/
def strToLower (s : String) : String :=
  String.mk (s.data.map Char.toLower)

/-- Split a character list at a separator, JavaScript `String.split` style
(adjacent separators produce empty groups). -/
def splitChar (sep : Char) (cs : List Char) : List (List Char) :=
  match cs with
  | [] => [[]]
  | c :: rest =>
    let r := splitChar sep rest
    if c = sep then [] :: r
    else
      match r with
      | [] => [[c]]
      | g :: gs => (c :: g) :: gs

/-- `className.split(' ')` (kernel-computable transcription). -/
def strSplitOn (s : String) (sep : Char) : List String :=
  (splitChar sep s.data).map String.mk

/-- `YEH.getElementKey` (yeh.js lines 524-547): structural key built from
tag name, id, class list and index among the parent's children. -/
def getElementKey (t : Tree) : DomNode → String
  | .document => "document"
  | .window => "window"
  | .elem p =>
    let d := t p
    let idPart := if d.idAttr = "" then "" else "#" ++ d.idAttr
    let classPart :=
      if d.className = "" then ""
      else "." ++ String.intercalate "." (strSplitOn d.className ' ')
    let idx : Nat :=
      match p with
      | [] => 0
      | i :: _ => i
    strToLower d.tag ++ idPart ++ classPart ++ "[" ++ toString idx ++ "]"

end YEH

/-- Helper: the parent walk from a descendant to an ancestor counts exactly
the difference of path lengths. -/
theorem YEH.domWalk_of_suffix (cp : List Nat) :
    ∀ (tp : List Nat) (acc : Nat), cp <:+ tp →
      YEH.domWalk (.elem cp) (.elem tp) acc = acc + (tp.length - cp.length) := by
  intro tp
  induction tp with
  | nil =>
    intro acc h
    have hcp : cp = [] := List.eq_nil_of_suffix_nil h
    subst hcp
    simp [YEH.domWalk, YEH.domWalkSteps]
  | cons i tl ih =>
    intro acc h
    by_cases heq : cp = i :: tl
    · subst heq
      simp [YEH.domWalk, YEH.domWalkSteps]
    · have htl : cp <:+ tl := by
        rcases List.suffix_cons_iff.mp h with h1 | h1
        · exact absurd h1 heq
        · exact h1
      have hlen : cp.length ≤ tl.length := htl.length_le
      have hne : YEH.DomNode.elem (i :: tl) ≠ YEH.DomNode.elem cp := by
        intro hc
        exact heq (by injection hc with h2; exact h2.symm)
      show YEH.domWalkSteps (.elem cp) (i :: tl) acc = acc + ((i :: tl).length - cp.length)
      rw [YEH.domWalkSteps, if_neg (by exact hne)]
      have hrec := ih (acc + 1) htl
      simp only [YEH.domWalk] at hrec
      rw [hrec]
      simp [List.length_cons]
      omega

/-- C4: the distance calculator returns the constant 1000 on the
document/window sentinel, `Infinity` when the container is not an
ancestor-or-self of the origin, and otherwise the number of parent-hops
from the origin up to the container (0 when they coincide). -/
theorem c4_distance_spec (target container : YEH.DomNode) :
    ((container = .document ∨ container = .window) →
      YEH.calculateDOMDistance target container = .fin 1000)
    ∧ (container ≠ .document → container ≠ .window →
        YEH.domContains container target = false →
        YEH.calculateDOMDistance target container = .inf)
    ∧ (∀ cp tp, container = .elem cp → target = .elem tp → cp <:+ tp →
        YEH.calculateDOMDistance target container = .fin (tp.length - cp.length))
    ∧ (∀ cp, container = .elem cp → target = container →
        YEH.calculateDOMDistance target container = .fin 0) := by
  refine ⟨?_, ?_, ?_, ?_⟩
  · intro h
    rcases h with h | h <;> subst h <;> simp [YEH.calculateDOMDistance]
  · intro h1 h2 h3
    simp [YEH.calculateDOMDistance, h3]
    constructor
    · intro hc; exact absurd hc h1
    · intro hc; exact absurd hc h2
  · intro cp tp hc ht hsuf
    subst hc; subst ht
    have hcontains : YEH.domContains (.elem cp) (.elem tp) = true := by
      simp [YEH.domContains, List.isSuffixOf_iff_suffix]
      exact hsuf
    simp [YEH.calculateDOMDistance, hcontains]
    rw [YEH.domWalk_of_suffix cp tp 0 hsuf]
    omega
  · intro cp hc ht
    subst hc; subst ht
    have hcontains : YEH.domContains (.elem cp) (.elem cp) = true := by
      simp [YEH.domContains, List.isSuffixOf_iff_suffix]
    simp [YEH.calculateDOMDistance, hcontains]
    rw [YEH.domWalk_of_suffix cp cp 0 List.suffix_rfl]
    omega

/-- Witness for C4 at a concrete tree: a grandchild node, its grandparent
container, an unrelated container, and the document sentinel. -/
theorem c4_distance_spec_witness :
    YEH.calculateDOMDistance (.elem [0, 1]) .document = .fin 1000
    ∧ YEH.calculateDOMDistance (.elem [0, 1]) (.elem [2]) = .inf
    ∧ YEH.calculateDOMDistance (.elem [0, 1]) (.elem []) = .fin 2
    ∧ YEH.calculateDOMDistance (.elem [0, 1]) (.elem [0, 1]) = .fin 0 := by
  refine ⟨?_, ?_, ?_, ?_⟩
  · exact (c4_distance_spec (.elem [0, 1]) .document).1 (Or.inl rfl)
  · exact (c4_distance_spec (.elem [0, 1]) (.elem [2])).2.1
      (by decide) (by decide) (by decide)
  · have h := (c4_distance_spec (.elem [0, 1]) (.elem [])).2.2.1
      [] [0, 1] rfl rfl (by decide)
    simpa using h
  · have h := (c4_distance_spec (.elem [0, 1]) (.elem [0, 1])).2.2.2
      [0, 1] rfl rfl
    simpa using h

namespace YEH

/-- The distance cache, a JavaScript `Map` from string keys to distances:
an insertion-ordered association list with unique keys. -/
abbrev DistCache := List (String × Dist)

/-- `Map.has`. -/
def cacheHas (m : DistCache) (k : String) : Bool :=
  m.any (fun e => e.1 = k)

/-- `Map.get` (only consulted after `has` succeeds; the default is never
observable). -/
def cacheGet (m : DistCache) (k : String) : Dist :=
  match m.find? (fun e => e.1 = k) with
  | some e => e.2
  | none => .inf

/-- `Map.set`: overwrite an existing key in place, else append. -/
def cacheSet (m : DistCache) (k : String) (v : Dist) : DistCache :=
  if cacheHas m k then m.map (fun e => if e.1 = k then (k, v) else e)
  else m ++ [(k, v)]

/-- The cache key of `YEH.calculateDistanceWithCache` (yeh.js line 346). -/
def cacheKey (t : Tree) (target container : DomNode) : String :=
  getElementKey t target ++ "-" ++ getElementKey t container

/-- `YEH.calculateDistanceWithCache` (yeh.js lines 340-358), returning the
distance together with the updated cache. -/
def calculateDistanceWithCache (enable : Bool) (t : Tree) (cache : DistCache)
    (target container : DomNode) : Dist × DistCache :=
  if !enable then (calculateDOMDistance target container, cache)
  else
    let k := cacheKey t target container
    if cacheHas cache k then (cacheGet cache k, cache)
    else
      let distance := calculateDOMDistance target container
      (distance, cacheSet cache k distance)

/-- One entry of `eventHandlerMap.get(event.type)` (yeh.js lines 866-871). -/
structure HandlerInfo where
  element : DomNode
  handler : String
  selector : String
deriving DecidableEq, Repr

/-- Accumulator of the closest-handler loop in `YEH.handleEvent`. -/
structure SelState where
  closestHandler : Option HandlerInfo
  closestDistance : Dist
  cache : DistCache
deriving Repr

/-- One iteration of the loop of `YEH.handleEvent` (yeh.js lines 271-278):
compute the (possibly cached) distance and keep the candidate only when it
is strictly closer than the best so far. -/
def selectStep (enable : Bool) (t : Tree) (target : DomNode)
    (st : SelState) (hi : HandlerInfo) : SelState :=
  let r := calculateDistanceWithCache enable t st.cache target hi.element
  if !(r.1 = Dist.inf) && Dist.jsLt r.1 st.closestDistance then
    { closestHandler := some hi, closestDistance := r.1, cache := r.2 }
  else
    { closestHandler := st.closestHandler,
      closestDistance := st.closestDistance, cache := r.2 }

/-- The closest-handler selection of `YEH.handleEvent` (yeh.js lines
261-280): starting from no candidate at distance `Infinity`, fold the loop
body over the registration list; `none` means no handler is invoked. -/
def selectClosest (enable : Bool) (t : Tree) (cache : DistCache)
    (target : DomNode) (handlers : List HandlerInfo) : SelState :=
  handlers.foldl (selectStep enable t target)
    { closestHandler := none, closestDistance := .inf, cache := cache }

/-- A tree all of whose elements are plain class-less, id-less `div`s. -/
def allDivs : Tree := fun _ => { tag := "div", idAttr := "", className := "" }

end YEH

/-- C2 counterexample: with the cache enabled, first look up the pair
(root-child, root-child) — distance 0, stored under the structural key
"div[0]-div[0]" — then look up the pair (elem [0,0], elem [0,1]).  The two
nodes of the second pair are distinct from those of the first, yet the
derived cache key is identical, so the memoized 0 is returned although the
true distance is `Infinity` (the container does not contain the origin). -/
theorem c2_counterexample :
    (YEH.calculateDistanceWithCache true YEH.allDivs
        ((YEH.calculateDistanceWithCache true YEH.allDivs []
          (.elem [0]) (.elem [0])).2)
        (.elem [0, 0]) (.elem [0, 1])).1 = .fin 0
    ∧ YEH.calculateDOMDistance (.elem [0, 0]) (.elem [0, 1]) = .inf := by
  constructor
  · rfl
  · rfl

/-- C1 counterexample: with the distance cache enabled (the default) and
initially empty, dispatching with origin `elem [0,0]` over registrations
[root, origin-itself] selects the root container (hop distance 2) instead
of the origin's own container (hop distance 0): all three nodes share the
structural key "div[0]", so the second lookup hits the entry stored by the
first and reports distance 2 for a distance-0 container. -/
theorem c1_counterexample :
    (YEH.selectClosest true YEH.allDivs [] (.elem [0, 0])
        [{ element := .elem [], handler := "h1", selector := "#root" },
         { element := .elem [0, 0], handler := "h2", selector := "#self" }]
      ).closestHandler
      = some { element := .elem [], handler := "h1", selector := "#root" }
    ∧ YEH.calculateDOMDistance (.elem [0, 0]) (.elem [0, 0]) = .fin 0
    ∧ YEH.calculateDOMDistance (.elem [0, 0]) (.elem []) = .fin 2 := by
  refine ⟨?_, ?_, ?_⟩
  · rfl
  · rfl
  · rfl

set_option maxRecDepth 8000 in
/-- C5 counterexample: a cache state reachable by an earlier dispatch (the
lookup of the pair (elem [0,0,0,0,0], root) stores distance 5 under the
structural key "div[0]-div[0]") makes the selection between two candidates
of EQUAL minimal finite distance pick the second-registered one.  The
origin sits 1000 hops below the root element, so the root's true hop
distance (1000) ties with the document sentinel's constant 1000; the
document handler is registered first and should win the tie, but the root's
cached (stale, collided) distance 5 beats 1000 and the second registration
is selected. -/
theorem c5_counterexample :
    (YEH.selectClosest true YEH.allDivs
        ((YEH.calculateDistanceWithCache true YEH.allDivs []
          (.elem (List.replicate 5 0)) (.elem [])).2)
        (.elem (List.replicate 1000 0))
        [{ element := .document, handler := "hDoc", selector := "document" },
         { element := .elem [], handler := "hRoot", selector := "#root" }]
      ).closestHandler
      = some { element := .elem [], handler := "hRoot", selector := "#root" }
    ∧ YEH.calculateDOMDistance (.elem (List.replicate 1000 0)) .document
        = .fin 1000
    ∧ YEH.calculateDOMDistance (.elem (List.replicate 1000 0)) (.elem [])
        = .fin 1000 := by
  refine ⟨?_, ?_, ?_⟩
  · rfl
  · rfl
  · rfl

namespace YEH

/-- The distance a loop iteration sees when the cache is disabled. -/
def handlerDist (target : DomNode) (hi : HandlerInfo) : Dist :=
  calculateDOMDistance target hi.element

/-- Cache-free image of one iteration of the closest-handler loop. -/
def selectStepPure (D : HandlerInfo → Dist) (st : Option HandlerInfo × Dist)
    (hi : HandlerInfo) : Option HandlerInfo × Dist :=
  if !(D hi = Dist.inf) && Dist.jsLt (D hi) st.2 then (some hi, D hi) else st

/-- Cache-free image of the whole closest-handler loop. -/
def pureSel (D : HandlerInfo → Dist) (l : List HandlerInfo) :
    Option HandlerInfo × Dist :=
  l.foldl (selectStepPure D) (none, .inf)

/-- Binary minimum in the order the loop uses. -/
def jsMin (a b : Dist) : Dist := if Dist.jsLt b a then b else a

/-- Minimum of a distance list (`Infinity` for the empty list). -/
def listMinD (ds : List Dist) : Dist := ds.foldl jsMin .inf

end YEH

/-- `jsLt` is irreflexive. -/
theorem YEH.Dist.jsLt_irrefl (a : YEH.Dist) : a.jsLt a = false := by
  cases a <;> simp [YEH.Dist.jsLt]

/-- Failures of `jsLt` compose (not-less-than is transitive). -/
theorem YEH.Dist.nlt_trans {a b c : YEH.Dist} (h1 : a.jsLt b = false)
    (h2 : b.jsLt c = false) : a.jsLt c = false := by
  cases a <;> cases b <;> cases c <;>
    simp_all [YEH.Dist.jsLt] <;> omega

/-- `a < b` and `c` not below `b` give `a < c`. -/
theorem YEH.Dist.lt_of_lt_of_nlt {a b c : YEH.Dist} (h1 : a.jsLt b = true)
    (h2 : c.jsLt b = false) : a.jsLt c = true := by
  cases a <;> cases b <;> cases c <;>
    simp_all [YEH.Dist.jsLt] <;> omega

/-- Two values neither of which is below the other are equal. -/
theorem YEH.Dist.eq_of_nlt_of_nlt {a b : YEH.Dist} (h1 : a.jsLt b = false)
    (h2 : b.jsLt a = false) : a = b := by
  cases a <;> cases b <;> simp_all [YEH.Dist.jsLt] <;> omega

/-- Nothing is below `Infinity`-free values from above: `jsLt a inf` holds
exactly when `a` is finite. -/
theorem YEH.Dist.jsLt_inf {a : YEH.Dist} : a.jsLt .inf = !(a = .inf) := by
  cases a <;> simp [YEH.Dist.jsLt]

/-- The running fold never exceeds its accumulator. -/
theorem YEH.foldlMin_le_acc :
    ∀ (ds : List YEH.Dist) (acc : YEH.Dist),
      YEH.Dist.jsLt acc (ds.foldl YEH.jsMin acc) = false := by
  intro ds
  induction ds with
  | nil => intro acc; simpa using YEH.Dist.jsLt_irrefl acc
  | cons d ds ih =>
    intro acc
    have hmin : YEH.Dist.jsLt acc (YEH.jsMin acc d) = false := by
      unfold YEH.jsMin
      by_cases hlt : YEH.Dist.jsLt d acc = true
      · rw [if_pos hlt]
        cases d <;> cases acc <;> simp_all [YEH.Dist.jsLt] <;> omega
      · rw [if_neg hlt]
        exact YEH.Dist.jsLt_irrefl acc
    have := ih (YEH.jsMin acc d)
    exact YEH.Dist.nlt_trans hmin this

/-- The fold result is below (or equal to) every list member. -/
theorem YEH.foldlMin_le_mem :
    ∀ (ds : List YEH.Dist) (acc d : YEH.Dist), d ∈ ds →
      YEH.Dist.jsLt d (ds.foldl YEH.jsMin acc) = false := by
  intro ds
  induction ds with
  | nil => intro acc d h; cases h
  | cons e ds ih =>
    intro acc d h
    rcases List.mem_cons.mp h with he | hds
    · subst he
      have h1 : YEH.Dist.jsLt d (YEH.jsMin acc d) = false := by
        unfold YEH.jsMin
        by_cases hlt : YEH.Dist.jsLt d acc = true
        · rw [if_pos hlt]; exact YEH.Dist.jsLt_irrefl d
        · rw [if_neg hlt]
          exact Bool.not_eq_true _ ▸ (by simpa using hlt)
      have h2 := YEH.foldlMin_le_acc ds (YEH.jsMin acc d)
      exact YEH.Dist.nlt_trans h1 h2
    · exact ih (YEH.jsMin acc e) d hds

/-- The fold result is the accumulator or a member of the list. -/
theorem YEH.foldlMin_mem_or :
    ∀ (ds : List YEH.Dist) (acc : YEH.Dist),
      ds.foldl YEH.jsMin acc = acc ∨ (ds.foldl YEH.jsMin acc) ∈ ds := by
  intro ds
  induction ds with
  | nil => intro acc; exact Or.inl rfl
  | cons e ds ih =>
    intro acc
    rcases ih (YEH.jsMin acc e) with h | h
    · rw [List.foldl_cons, h]
      unfold YEH.jsMin
      by_cases hlt : YEH.Dist.jsLt e acc = true
      · rw [if_pos hlt]; exact Or.inr (List.mem_cons_self _ _)
      · rw [if_neg hlt]; exact Or.inl rfl
    · exact Or.inr (List.mem_cons_of_mem _ h)

/-- Characterization of the closest-handler fold for an arbitrary distance
assignment `D`: the tracked distance is the list minimum, no handler is
tracked exactly when that minimum is `Infinity`, and a tracked handler
attains the minimum with every earlier registration strictly farther. -/
theorem YEH.pureSel_char (D : YEH.HandlerInfo → YEH.Dist)
    (l : List YEH.HandlerInfo) :
    (YEH.pureSel D l).2 = YEH.listMinD (l.map D)
    ∧ ((YEH.pureSel D l).1 = none ↔ (YEH.pureSel D l).2 = .inf)
    ∧ (∀ h, (YEH.pureSel D l).1 = some h →
        D h = (YEH.pureSel D l).2
        ∧ ∃ l1 l2, l = l1 ++ h :: l2
            ∧ ∀ h2 ∈ l1, YEH.Dist.jsLt (D h) (D h2) = true) := by
  induction l using List.reverseRecOn with
  | nil =>
    refine ⟨rfl, by simp [YEH.pureSel, YEH.listMinD], ?_⟩
    intro h hc
    simp [YEH.pureSel] at hc
  | append_singleton l x ih =>
    obtain ⟨ihmin, ihiff, ihsome⟩ := ih
    have hfold : YEH.pureSel D (l ++ [x])
        = YEH.selectStepPure D (YEH.pureSel D l) x := by
      simp [YEH.pureSel, List.foldl_append]
    have hmap : (l ++ [x]).map D = l.map D ++ [D x] := by simp
    have hminapp : YEH.listMinD ((l ++ [x]).map D)
        = YEH.jsMin (YEH.listMinD (l.map D)) (D x) := by
      rw [hmap]
      simp [YEH.listMinD, List.foldl_append]
    by_cases hinf : D x = YEH.Dist.inf
    · -- the new candidate is unreachable: nothing changes
      have hstep : YEH.selectStepPure D (YEH.pureSel D l) x = YEH.pureSel D l := by
        unfold YEH.selectStepPure
        rw [if_neg]
        simp [hinf]
      have hminval : YEH.jsMin (YEH.listMinD (l.map D)) (D x)
          = YEH.listMinD (l.map D) := by
        unfold YEH.jsMin
        rw [hinf]
        cases hmd : YEH.listMinD (l.map D) <;> simp [YEH.Dist.jsLt]
      refine ⟨?_, ?_, ?_⟩
      · rw [hfold, hstep, hminapp, hminval, ihmin]
      · rw [hfold, hstep]
        exact ihiff
      · intro h hc
        rw [hfold, hstep] at hc
        obtain ⟨hdh, l1, l2, hdec, hearly⟩ := ihsome h hc
        refine ⟨by rw [hfold, hstep]; exact hdh, l1, l2 ++ [x], ?_, hearly⟩
        rw [hdec]
        simp
    · by_cases hlt : YEH.Dist.jsLt (D x) (YEH.pureSel D l).2 = true
      · -- strictly closer: the new candidate is selected
        have hstep : YEH.selectStepPure D (YEH.pureSel D l) x = (some x, D x) := by
          unfold YEH.selectStepPure
          rw [if_pos]
          simp [hinf, hlt]
        have hminval : YEH.jsMin (YEH.listMinD (l.map D)) (D x) = D x := by
          unfold YEH.jsMin
          rw [← ihmin, hlt]
          simp
        refine ⟨?_, ?_, ?_⟩
        · rw [hfold, hstep, hminapp, hminval]
        · rw [hfold, hstep]
          simp [hinf]
        · intro h hc
          rw [hfold, hstep] at hc
          simp at hc
          subst hc
          refine ⟨by rw [hfold, hstep], l, [], rfl, ?_⟩
          intro h2 hmem
          have hle : YEH.Dist.jsLt (D h2) (YEH.pureSel D l).2 = false := by
            rw [ihmin]
            exact YEH.foldlMin_le_mem (l.map D) .inf (D h2)
              (List.mem_map_of_mem D hmem)
          exact YEH.Dist.lt_of_lt_of_nlt hlt hle
      · -- not strictly closer: the earlier selection is kept
        have hstep : YEH.selectStepPure D (YEH.pureSel D l) x = YEH.pureSel D l := by
          unfold YEH.selectStepPure
          rw [if_neg]
          simp [hlt]
        have hminval : YEH.jsMin (YEH.listMinD (l.map D)) (D x)
            = YEH.listMinD (l.map D) := by
          unfold YEH.jsMin
          rw [← ihmin]
          simp [hlt]
        refine ⟨?_, ?_, ?_⟩
        · rw [hfold, hstep, hminapp, hminval, ihmin]
        · rw [hfold, hstep]
          exact ihiff
        · intro h hc
          rw [hfold, hstep] at hc
          obtain ⟨hdh, l1, l2, hdec, hearly⟩ := ihsome h hc
          refine ⟨by rw [hfold, hstep]; exact hdh, l1, l2 ++ [x], ?_, hearly⟩
          rw [hdec]
          simp

/-- `selectClosest` with the cache disabled is the pure fold: the cache is
neither read nor written and the tracked pair evolves identically. -/
theorem YEH.selectClosest_false_eq (t : YEH.Tree) (target : YEH.DomNode) :
    ∀ (l : List YEH.HandlerInfo) (st : YEH.SelState),
      l.foldl (YEH.selectStep false t target) st
        = { closestHandler :=
              (l.foldl (YEH.selectStepPure (YEH.handlerDist target))
                (st.closestHandler, st.closestDistance)).1,
            closestDistance :=
              (l.foldl (YEH.selectStepPure (YEH.handlerDist target))
                (st.closestHandler, st.closestDistance)).2,
            cache := st.cache } := by
  intro l
  induction l with
  | nil => intro st; rfl
  | cons hi l ih =>
    intro st
    rw [List.foldl_cons, List.foldl_cons, ih]
    have hstep : YEH.selectStep false t target st hi
        = { closestHandler :=
              (YEH.selectStepPure (YEH.handlerDist target)
                (st.closestHandler, st.closestDistance) hi).1,
            closestDistance :=
              (YEH.selectStepPure (YEH.handlerDist target)
                (st.closestHandler, st.closestDistance) hi).2,
            cache := st.cache } := by
      unfold YEH.selectStep YEH.selectStepPure YEH.calculateDistanceWithCache
        YEH.handlerDist
      simp only [Bool.not_false, if_true]
      by_cases hc : (!(YEH.calculateDOMDistance target hi.element = YEH.Dist.inf)
          && YEH.Dist.jsLt (YEH.calculateDOMDistance target hi.element)
            st.closestDistance) = true
      · rw [if_pos hc, if_pos hc]
      · rw [if_neg hc, if_neg hc]
    rw [hstep]

/-- The fold minimum is `Infinity` exactly when the accumulator and every
member are. -/
theorem YEH.foldlMin_inf_iff :
    ∀ (ds : List YEH.Dist) (acc : YEH.Dist),
      ds.foldl YEH.jsMin acc = .inf ↔ (acc = .inf ∧ ∀ d ∈ ds, d = .inf) := by
  intro ds
  induction ds with
  | nil => intro acc; simp
  | cons e ds ih =>
    intro acc
    rw [List.foldl_cons, ih]
    have hpair : YEH.jsMin acc e = .inf ↔ (acc = .inf ∧ e = .inf) := by
      cases acc <;> cases e <;> simp [YEH.jsMin, YEH.Dist.jsLt]
      split <;> simp_all
    rw [hpair]
    constructor
    · rintro ⟨⟨h1, h2⟩, h3⟩
      refine ⟨h1, ?_⟩
      intro d hd
      rcases List.mem_cons.mp hd with h | h
      · exact h ▸ h2
      · exact h3 d h
    · rintro ⟨h1, h2⟩
      refine ⟨⟨h1, h2 e (List.mem_cons_self _ _)⟩, ?_⟩
      intro d hd
      exact h2 d (List.mem_cons_of_mem _ hd)

/-- C1 (amended): with the distance cache disabled, the dispatch loop of
`handleEvent` invokes no handler exactly when every candidate container is
unreachable from the origin (or the list is empty), and a selected
candidate is a registration from the list whose distance is finite and
minimal among all candidates, its container being the document/window
sentinel or an ancestor-or-self of the origin.  (With the cache enabled
this fails: see the counterexample, where a structural key collision makes
the loop select a non-minimal registration.) -/
theorem c1_resolution_correct_without_cache (t : YEH.Tree)
    (cache : YEH.DistCache) (target : YEH.DomNode)
    (handlers : List YEH.HandlerInfo) :
    ((YEH.selectClosest false t cache target handlers).closestHandler = none ↔
      ∀ h ∈ handlers, YEH.calculateDOMDistance target h.element = .inf)
    ∧ (∀ h,
        (YEH.selectClosest false t cache target handlers).closestHandler
            = some h →
          (∃ l1 l2, handlers = l1 ++ h :: l2)
          ∧ YEH.calculateDOMDistance target h.element ≠ .inf
          ∧ (∀ h2 ∈ handlers,
              YEH.Dist.jsLt (YEH.calculateDOMDistance target h2.element)
                (YEH.calculateDOMDistance target h.element) = false)
          ∧ (h.element = .document ∨ h.element = .window ∨
              YEH.domContains h.element target = true)) := by
  have hsel : YEH.selectClosest false t cache target handlers
      = { closestHandler := (YEH.pureSel (YEH.handlerDist target) handlers).1,
          closestDistance := (YEH.pureSel (YEH.handlerDist target) handlers).2,
          cache := cache } :=
    YEH.selectClosest_false_eq t target handlers
      { closestHandler := none, closestDistance := .inf, cache := cache }
  obtain ⟨hmin, hiff, hsome⟩ := YEH.pureSel_char (YEH.handlerDist target) handlers
  constructor
  · rw [hsel]
    simp only []
    rw [hiff, hmin]
    unfold YEH.listMinD
    rw [YEH.foldlMin_inf_iff]
    simp [YEH.handlerDist]
  · intro h hc
    rw [hsel] at hc
    simp only [] at hc
    obtain ⟨hdh, l1, l2, hdec, _⟩ := hsome h hc
    have hne : (YEH.pureSel (YEH.handlerDist target) handlers).2 ≠ .inf := by
      intro hinf
      rw [hiff.mpr hinf] at hc
      exact Option.noConfusion hc
    refine ⟨⟨l1, l2, hdec⟩, ?_, ?_, ?_⟩
    · rw [show YEH.calculateDOMDistance target h.element
          = YEH.handlerDist target h from rfl, hdh]
      exact hne
    · intro h2 hmem
      have hle := YEH.foldlMin_le_mem (handlers.map (YEH.handlerDist target))
        .inf (YEH.handlerDist target h2) (List.mem_map_of_mem _ hmem)
      rw [show YEH.calculateDOMDistance target h.element
          = YEH.handlerDist target h from rfl, hdh, hmin]
      exact hle
    · cases helem : h.element with
      | document => exact Or.inl rfl
      | window => exact Or.inr (Or.inl rfl)
      | elem cp =>
        refine Or.inr (Or.inr ?_)
        by_contra hcont
        have hcont2 : YEH.domContains (.elem cp) target = false :=
          Bool.not_eq_true _ ▸ (by simpa [helem] using hcont)
        have : YEH.calculateDOMDistance target h.element = .inf := by
          rw [helem]
          simp [YEH.calculateDOMDistance, hcont2]
        rw [show YEH.calculateDOMDistance target h.element
            = YEH.handlerDist target h from rfl, hdh] at this
        exact hne this

/-- Witness for C1 (amended) on a concrete tree: a single unreachable
registration selects nobody, and with candidates [sibling, root] the root
(the only reachable one) is selected, is reachable, and is minimal. -/
theorem c1_resolution_correct_without_cache_witness :
    (YEH.selectClosest false YEH.allDivs [] (.elem [0])
        [{ element := .elem [2], handler := "a", selector := "s" }]
      ).closestHandler = none
    ∧ YEH.calculateDOMDistance (.elem [0]) (.elem []) ≠ .inf
    ∧ YEH.Dist.jsLt (YEH.calculateDOMDistance (.elem [0]) (.elem [2]))
        (YEH.calculateDOMDistance (.elem [0]) (.elem [])) = false := by
  refine ⟨?_, ?_, ?_⟩
  · exact (c1_resolution_correct_without_cache YEH.allDivs [] (.elem [0])
      [{ element := .elem [2], handler := "a", selector := "s" }]).1.mpr
      (by intro h hm; simp at hm; subst hm; rfl)
  · have h := (c1_resolution_correct_without_cache YEH.allDivs [] (.elem [0])
      [{ element := .elem [2], handler := "a", selector := "s" },
       { element := .elem [], handler := "b", selector := "r" }]).2
      { element := .elem [], handler := "b", selector := "r" } (by rfl)
    exact h.2.1
  · have h := (c1_resolution_correct_without_cache YEH.allDivs [] (.elem [0])
      [{ element := .elem [2], handler := "a", selector := "s" },
       { element := .elem [], handler := "b", selector := "r" }]).2
      { element := .elem [], handler := "b", selector := "r" } (by rfl)
    exact h.2.2.1 { element := .elem [2], handler := "a", selector := "s" }
      (by simp)

/-- C2 (amended): the cached distance equals the direct computation
whenever caching is disabled, and, with caching enabled, whenever the cache
holds no entry under the pair's structural key. Distinct node identities
can share a structural key, so a memoized value can be returned for a
different pair (see the counterexample). -/
theorem c2_cache_transparent (t : YEH.Tree) (cache : YEH.DistCache)
    (a b : YEH.DomNode) :
    (YEH.calculateDistanceWithCache false t cache a b).1
        = YEH.calculateDOMDistance a b
    ∧ (YEH.cacheHas cache (YEH.cacheKey t a b) = false →
        (YEH.calculateDistanceWithCache true t cache a b).1
          = YEH.calculateDOMDistance a b) := by
  constructor
  · rfl
  · intro h
    simp [YEH.calculateDistanceWithCache, h]

/-- Witness for C2 (amended): an empty cache has no entry for the pair
(root, root), and both the disabled-cache and the miss path return the
direct distance. -/
theorem c2_cache_transparent_witness :
    (YEH.calculateDistanceWithCache false YEH.allDivs [] (.elem []) (.elem [])).1
        = YEH.calculateDOMDistance (.elem []) (.elem [])
    ∧ YEH.cacheHas [] (YEH.cacheKey YEH.allDivs (.elem []) (.elem [])) = false
    ∧ (YEH.calculateDistanceWithCache true YEH.allDivs [] (.elem []) (.elem [])).1
        = YEH.calculateDOMDistance (.elem []) (.elem []) := by
  refine ⟨(c2_cache_transparent YEH.allDivs [] (.elem []) (.elem [])).1, rfl,
    (c2_cache_transparent YEH.allDivs [] (.elem []) (.elem [])).2 rfl⟩

/-- C5 (amended): with the distance cache disabled, when two registrations
hi (earlier) and hj (later) have equal minimal finite distance to the
origin, the loop selects a registration no later than hi whose distance
equals theirs, every still-earlier registration being strictly farther —
the first-registered of the tied candidates wins.  (With the cache enabled
this fails: see the counterexample, where a stale collided entry makes the
later of two equally-distant candidates win.) -/
theorem c5_tiebreak_first_registered (t : YEH.Tree) (cache : YEH.DistCache)
    (target : YEH.DomNode) (la lb lc : List YEH.HandlerInfo)
    (hi hj : YEH.HandlerInfo)
    (heq : YEH.calculateDOMDistance target hi.element
        = YEH.calculateDOMDistance target hj.element)
    (hfin : YEH.calculateDOMDistance target hi.element ≠ .inf)
    (hminimal : ∀ h ∈ la ++ hi :: lb ++ hj :: lc,
        YEH.Dist.jsLt (YEH.calculateDOMDistance target h.element)
          (YEH.calculateDOMDistance target hi.element) = false) :
    ∃ s l1 l2,
      (YEH.selectClosest false t cache target
          (la ++ hi :: lb ++ hj :: lc)).closestHandler = some s
      ∧ YEH.calculateDOMDistance target s.element
          = YEH.calculateDOMDistance target hi.element
      ∧ la ++ hi :: lb ++ hj :: lc = l1 ++ s :: l2
      ∧ l1.length ≤ la.length
      ∧ ∀ h2 ∈ l1, YEH.Dist.jsLt (YEH.calculateDOMDistance target s.element)
          (YEH.calculateDOMDistance target h2.element) = true := by
  have hsel : YEH.selectClosest false t cache target (la ++ hi :: lb ++ hj :: lc)
      = { closestHandler :=
            (YEH.pureSel (YEH.handlerDist target) (la ++ hi :: lb ++ hj :: lc)).1,
          closestDistance :=
            (YEH.pureSel (YEH.handlerDist target) (la ++ hi :: lb ++ hj :: lc)).2,
          cache := cache } :=
    YEH.selectClosest_false_eq t target (la ++ hi :: lb ++ hj :: lc)
      { closestHandler := none, closestDistance := .inf, cache := cache }
  obtain ⟨hmin, hiff, hsome⟩ :=
    YEH.pureSel_char (YEH.handlerDist target) (la ++ hi :: lb ++ hj :: lc)
  have hmemhi : hi ∈ la ++ hi :: lb ++ hj :: lc := by simp
  -- the running minimum equals the tied distance
  have hle_hi : YEH.Dist.jsLt (YEH.handlerDist target hi)
      (YEH.listMinD ((la ++ hi :: lb ++ hj :: lc).map (YEH.handlerDist target)))
        = false :=
    YEH.foldlMin_le_mem _ .inf _ (List.mem_map_of_mem _ hmemhi)
  have hmin_ne_inf :
      YEH.listMinD ((la ++ hi :: lb ++ hj :: lc).map (YEH.handlerDist target))
        ≠ .inf := by
    intro hbad
    rw [hbad, YEH.Dist.jsLt_inf] at hle_hi
    simp [YEH.handlerDist] at hle_hi
    exact hfin hle_hi
  have hmin_eq : YEH.listMinD
      ((la ++ hi :: lb ++ hj :: lc).map (YEH.handlerDist target))
        = YEH.calculateDOMDistance target hi.element := by
    rcases YEH.foldlMin_mem_or
        ((la ++ hi :: lb ++ hj :: lc).map (YEH.handlerDist target)) .inf with
      hacc | hmem
    · exact absurd hacc hmin_ne_inf
    · obtain ⟨h0, hmem0, hval0⟩ := List.mem_map.mp hmem
      have h1 := hminimal h0 hmem0
      rw [show YEH.calculateDOMDistance target h0.element
          = YEH.handlerDist target h0 from rfl, hval0] at h1
      exact YEH.Dist.eq_of_nlt_of_nlt h1 hle_hi
  have hne2 : (YEH.pureSel (YEH.handlerDist target)
      (la ++ hi :: lb ++ hj :: lc)).2 ≠ .inf := by
    rw [hmin, hmin_eq]
    exact hfin
  obtain ⟨s, hs⟩ : ∃ s, (YEH.pureSel (YEH.handlerDist target)
      (la ++ hi :: lb ++ hj :: lc)).1 = some s := by
    cases hopt : (YEH.pureSel (YEH.handlerDist target)
        (la ++ hi :: lb ++ hj :: lc)).1 with
    | none => exact absurd (hiff.mp hopt) hne2
    | some s => exact ⟨s, rfl⟩
  obtain ⟨hds, l1, l2, hdec, hearly⟩ := hsome s hs
  have hds2 : YEH.calculateDOMDistance target s.element
      = YEH.calculateDOMDistance target hi.element := by
    rw [show YEH.calculateDOMDistance target s.element
        = YEH.handlerDist target s from rfl, hds, hmin, hmin_eq]
  refine ⟨s, l1, l2, ?_, hds2, hdec, ?_, ?_⟩
  · rw [hsel, hs]
  · -- were l1 longer than la, hi itself would lie in l1 and be strictly
    -- farther than s, contradicting equality of their distances
    by_contra hgt
    push_neg at hgt
    have hdec2 : la ++ (hi :: (lb ++ hj :: lc)) = l1 ++ (s :: l2) := by
      simpa using hdec
    rcases List.append_eq_append_iff.mp hdec2.symm with hcase | hcase
    · obtain ⟨c2, hla, _⟩ := hcase
      have : la.length = l1.length + c2.length := by
        rw [hla]; simp
      omega
    · obtain ⟨a2, hl1, hrest⟩ := hcase
      have ha2 : a2 ≠ [] := by
        intro hnil
        rw [hnil, List.append_nil] at hl1
        have : l1.length = la.length := by rw [← hl1]
        omega
      obtain ⟨a0, a3, ha23⟩ := List.exists_cons_of_ne_nil ha2
      rw [ha23] at hrest
      have ha0 : a0 = hi := by
        have := hrest
        simp at this
        exact this.1.symm
      have hhi_in_l1 : hi ∈ l1 := by
        rw [hl1, ha23, ha0]
        simp
      have hstrict := hearly hi hhi_in_l1
      rw [show YEH.handlerDist target s
          = YEH.calculateDOMDistance target s.element from rfl, hds2] at hstrict
      rw [show YEH.handlerDist target hi
          = YEH.calculateDOMDistance target hi.element from rfl] at hstrict
      rw [YEH.Dist.jsLt_irrefl] at hstrict
      exact Bool.false_ne_true hstrict
  · intro h2 hmem2
    have := hearly h2 hmem2
    rw [show YEH.handlerDist target s
        = YEH.calculateDOMDistance target s.element from rfl] at this
    rw [show YEH.handlerDist target h2
        = YEH.calculateDOMDistance target h2.element from rfl] at this
    exact this

/-- Witness for C5 (amended): the document and window sentinels both sit at
distance 1000 from the origin, an exact tie; with the cache disabled the
first-registered (document) handler is selected. -/
theorem c5_tiebreak_first_registered_witness :
    (YEH.selectClosest false YEH.allDivs [] (.elem [0])
        [{ element := .document, handler := "hDoc", selector := "document" },
         { element := .window, handler := "hWin", selector := "window" }]
      ).closestHandler
      = some { element := .document, handler := "hDoc", selector := "document" } := by
  have h := c5_tiebreak_first_registered YEH.allDivs [] (.elem [0])
    [] [] []
    { element := .document, handler := "hDoc", selector := "document" }
    { element := .window, handler := "hWin", selector := "window" }
    (by rfl) (by decide)
    (by
      intro h hm
      simp at hm
      rcases hm with hm | hm <;> subst hm <;> rfl)
  obtain ⟨s, l1, l2, hsel, hdist, hdec, hlen, _⟩ := h
  have hl1 : l1 = [] := List.length_eq_zero.mp (Nat.le_zero.mp hlen)
  subst hl1
  simp only [List.nil_append] at hdec
  injection hdec with h1 h2
  subst h1
  simpa using hsel

namespace YEH

/-- Opaque argument value captured by a rate-limited call. -/
abbrev Arg := Nat

/-- State of `YEH._debounceImplementation` (yeh.js lines 1127-1140) for one
fixed key: at most one pending timer (fire time and the captured
arguments) — each call clears the previous one — plus the log of
executions (time, arguments). -/
structure DebState where
  pending : Option (Nat × Arg)
  execs : List (Nat × Arg)
deriving DecidableEq, Repr

/-- Host timer queue: a pending debounce timer due strictly before time `t`
fires (executing `fn` with its captured arguments and deleting the key)
before the call at `t` is processed. -/
def debFireDue (t : Nat) (st : DebState) : DebState :=
  match st.pending with
  | some (ft, a) =>
    if ft < t then { pending := none, execs := st.execs ++ [(ft, a)] } else st
  | none => st

/-- The body of the debounced closure: `clearTimeout` on the stored timer,
then `setTimeout(delay)` capturing the latest arguments. -/
def debCall (delay t : Nat) (a : Arg) (st : DebState) : DebState :=
  { pending := some (t + delay, a), execs := st.execs }

/-- Run the debounced closure over a chronologically sorted call list; once
the calls are exhausted the surviving timer (if any) fires. -/
def debRun (delay : Nat) : List (Nat × Arg) → DebState → DebState
  | [], st =>
    match st.pending with
    | some (ft, a) => { pending := none, execs := st.execs ++ [(ft, a)] }
    | none => st
  | (t, a) :: rest, st => debRun delay rest (debCall delay t a (debFireDue t st))

/-- The execution list the debounce contract promises: a call executes
exactly when no later call arrives strictly before its timer would fire,
and then it executes at `t + delay` with its own arguments. -/
def debSpecExecs (delay : Nat) : List (Nat × Arg) → List (Nat × Arg)
  | [] => []
  | (t, a) :: rest =>
    (match rest with
     | [] => [(t + delay, a)]
     | (t2, _) :: _ => if t + delay < t2 then [(t + delay, a)] else [])
    ++ debSpecExecs delay rest

end YEH

/-- The debounce run, started from any single-key state, executes the
still-pending timer (unless superseded by the next call) followed by
exactly the uninterrupted calls. -/
theorem YEH.debRun_execs :
    ∀ (delay : Nat) (calls : List (Nat × YEH.Arg))
      (pend : Option (Nat × YEH.Arg)) (es : List (Nat × YEH.Arg)),
      (YEH.debRun delay calls { pending := pend, execs := es }).execs
        = es
          ++ (match pend, calls with
              | some (ft, a), [] => [(ft, a)]
              | some (ft, a), (t1, _) :: _ =>
                if ft < t1 then [(ft, a)] else []
              | none, _ => [])
          ++ YEH.debSpecExecs delay calls := by
  intro delay calls
  induction calls with
  | nil =>
    intro pend es
    cases pend with
    | none => simp [YEH.debRun, YEH.debSpecExecs]
    | some p =>
      obtain ⟨ft, a⟩ := p
      simp [YEH.debRun, YEH.debSpecExecs]
  | cons c rest ih =>
    intro pend es
    obtain ⟨t, a⟩ := c
    cases pend with
    | none =>
      rw [show YEH.debRun delay ((t, a) :: rest) { pending := none, execs := es }
          = YEH.debRun delay rest
              { pending := some (t + delay, a), execs := es } from rfl]
      rw [ih (some (t + delay, a)) es]
      cases rest with
      | nil => simp [YEH.debSpecExecs]
      | cons c2 r2 =>
        obtain ⟨t2, a2⟩ := c2
        simp [YEH.debSpecExecs]
    | some p =>
      obtain ⟨ft, a0⟩ := p
      by_cases hdue : ft < t
      · rw [show YEH.debRun delay ((t, a) :: rest)
            { pending := some (ft, a0), execs := es }
            = YEH.debRun delay rest
                { pending := some (t + delay, a),
                  execs := es ++ [(ft, a0)] } from by
          simp [YEH.debRun, YEH.debFireDue, YEH.debCall, hdue]]
        rw [ih (some (t + delay, a)) (es ++ [(ft, a0)])]
        cases rest with
        | nil => simp [YEH.debSpecExecs, hdue]
        | cons c2 r2 =>
          obtain ⟨t2, a2⟩ := c2
          simp [YEH.debSpecExecs, hdue]
      · rw [show YEH.debRun delay ((t, a) :: rest)
            { pending := some (ft, a0), execs := es }
            = YEH.debRun delay rest
                { pending := some (t + delay, a), execs := es } from by
          simp [YEH.debRun, YEH.debFireDue, YEH.debCall, hdue]]
        rw [ih (some (t + delay, a)) es]
        cases rest with
        | nil => simp [YEH.debSpecExecs, hdue]
        | cons c2 r2 =>
          obtain ⟨t2, a2⟩ := c2
          simp [YEH.debSpecExecs, hdue]

/-- C6: debouncing with delay 200 and calls at 0, 50 and 100 produces
exactly one execution, at time 300, with the arguments of the call at time
100; and in general every call cancels the pending timer of its key, so
exactly the calls whose timers elapse uninterrupted execute, each at its
own time plus the delay and with its own arguments. -/
theorem c6_debounce_spec :
    (YEH.debRun 200 [(0, 10), (50, 11), (100, 12)]
        { pending := none, execs := [] }).execs = [(300, 12)]
    ∧ ∀ (delay : Nat) (calls : List (Nat × YEH.Arg)),
        (YEH.debRun delay calls { pending := none, execs := [] }).execs
          = YEH.debSpecExecs delay calls := by
  constructor
  · rfl
  · intro delay calls
    rw [YEH.debRun_execs delay calls none []]
    cases calls <;> simp

namespace YEH

/-- The per-key `timerData` object of `_throttleImplementation` (yeh.js
lines 1147-1174): the latest captured arguments and the id of the pending
trailing timeout, if one is scheduled.  (The leading `timeout` field is set
once at creation and never cleared, so "entry present" is what the
`!timerData || !timerData.timeout` test observes.) -/
structure TObj where
  lastArgs : Arg
  trailingId : Option Nat
deriving DecidableEq, Repr

/-- A scheduled host timer callback of the throttle implementation. -/
inductive TAct where
  | delKey
  | trailingFire (obj : Nat)
deriving DecidableEq, Repr

/-- Single-key state of a throttled closure: the `timers` map entry (an
object reference), the heap of `timerData` objects (which outlive their map
entry because the trailing closure captures them), the pending host timers
(id, fire time, action), the execution log and a fresh-id counter. -/
structure ThrState where
  mapEntry : Option Nat
  objs : List (Nat × TObj)
  timers : List (Nat × Nat × TAct)
  execs : List (Nat × Arg)
  fresh : Nat
deriving DecidableEq, Repr

/-- Heap lookup. -/
def objGet (objs : List (Nat × TObj)) (i : Nat) : Option TObj :=
  match objs.find? (fun e => e.1 = i) with
  | some e => some e.2
  | none => none

/-- Heap update (replace in place or append). -/
def objSet (objs : List (Nat × TObj)) (i : Nat) (v : TObj) :
    List (Nat × TObj) :=
  if objs.any (fun e => e.1 = i) then
    objs.map (fun e => if e.1 = i then (i, v) else e)
  else objs ++ [(i, v)]

/-- `clearTimeout`. -/
def removeTimer (tid : Nat) (timers : List (Nat × Nat × TAct)) :
    List (Nat × Nat × TAct) :=
  timers.filter (fun e => !(e.1 = tid))

/-- The body of the throttled closure at time `t` with arguments `a`
(yeh.js lines 1148-1173): leading edge when no entry exists, otherwise
update `lastArgs`, clear any pending trailing timeout and schedule a new
one at `t + delay`. -/
def processCall (delay t : Nat) (a : Arg) (st : ThrState) : ThrState :=
  match st.mapEntry with
  | none =>
    { mapEntry := some st.fresh,
      objs := objSet st.objs st.fresh { lastArgs := a, trailingId := none },
      timers := st.timers ++ [(st.fresh + 1, t + delay, .delKey)],
      execs := st.execs ++ [(t, a)],
      fresh := st.fresh + 2 }
  | some i =>
    match objGet st.objs i with
    | none =>
      -- unreachable: a map entry always references a live object
      st
    | some obj =>
      let cleared :=
        match obj.trailingId with
        | some tid => removeTimer tid st.timers
        | none => st.timers
      { mapEntry := st.mapEntry,
        objs := objSet st.objs i { lastArgs := a, trailingId := some st.fresh },
        timers := cleared ++ [(st.fresh, t + delay, .trailingFire i)],
        execs := st.execs,
        fresh := st.fresh + 1 }

/-- Execute one fired timer callback: the leading timeout deletes the map
entry (even when a trailing call is pending); the trailing timeout executes
`fn` with the captured object's `lastArgs` and deletes whatever entry the
map currently holds. -/
def applyTimer (ft : Nat) (act : TAct) (st : ThrState) : ThrState :=
  match act with
  | .delKey => { st with mapEntry := none }
  | .trailingFire i =>
    match objGet st.objs i with
    | some obj =>
      { st with execs := st.execs ++ [(ft, obj.lastArgs)], mapEntry := none }
    | none => st

/-- The next host timer to fire before the bound (exclusive): minimal fire
time, creation order on ties. -/
def dueMin (bound : Option Nat) :
    List (Nat × Nat × TAct) → Option (Nat × Nat × TAct)
  | [] => none
  | tm :: rest =>
    let isDue :=
      match bound with
      | none => true
      | some b => tm.2.1 < b
    match dueMin bound rest with
    | none => if isDue then some tm else none
    | some best =>
      if isDue then (if tm.2.1 ≤ best.2.1 then some tm else some best)
      else some best

/-- Fire every timer due before the bound, in fire-time order (fuel is the
timer count: firing never schedules). -/
def fireDue (bound : Option Nat) : Nat → ThrState → ThrState
  | 0, st => st
  | fuel + 1, st =>
    match dueMin bound st.timers with
    | none => st
    | some (tid, ft, act) =>
      fireDue bound fuel
        (applyTimer ft act { st with timers := removeTimer tid st.timers })

/-- Run the throttled closure over a chronologically sorted call list,
firing due timers before each call and flushing the queue at the end. -/
def thrRun (delay : Nat) : List (Nat × Arg) → ThrState → ThrState
  | [], st => fireDue none st.timers.length st
  | (t, a) :: rest, st =>
    thrRun delay rest
      (processCall delay t a (fireDue (some t) st.timers.length st))

/-- The throttle state of a fresh key. -/
def initThr : ThrState :=
  { mapEntry := none, objs := [], timers := [], execs := [], fresh := 0 }

end YEH

/-- C3 evaluation at the failing input: throttling with delay 200 and calls
at times 0, 10 and 209 (= 10 + delay − 1) executes THREE times — the
leading edge at 0 with the first arguments, a new leading edge at 209 with
the third call's arguments (the cooldown entry was deleted at time 200
although a trailing call was pending), and the stale trailing at 210 with
the second call's arguments — instead of the documented two executions
(leading at 0, trailing with the second call's arguments) with none
strictly between. -/
theorem c3_throttle_triple_execution :
    (YEH.thrRun 200 [(0, 10), (10, 11), (209, 12)] YEH.initThr).execs
      = [(0, 10), (209, 12), (210, 11)] := by
  rfl

namespace YEH

/-- Initial value of `this.userHasInteracted` (yeh.js line 228). -/
def initialUserHasInteracted : Bool := false

/-- `YEH.checkUserInteraction` (yeh.js lines 330-334) as a function of the
configured passive list, the current flag and the handled event's type. -/
def checkUserInteraction (passiveEvents : List String) (flag : Bool)
    (eventType : String) : Bool :=
  if !flag && !(passiveEvents.contains eventType) then true else flag

/-- `YEH.hasUserInteracted` (yeh.js lines 322-324): returns the flag and
the (unchanged) state. -/
def hasUserInteracted (flag : Bool) : Bool × Bool := (flag, flag)

/-- `YEH.resetUserInteracted` (yeh.js lines 326-328). -/
def resetUserInteracted (_flag : Bool) : Bool := false

/-- A stored event configuration: the string shorthand, or an object with
a `type` property (an opaque payload stands for its other properties). -/
inductive EvCfg where
  | sCfg (s : String)
  | oCfg (ty : String) (payload : Nat)
deriving DecidableEq, Repr

/-- `typeof config === 'string' ? config : config.type` (yeh.js lines 789
and 819). -/
def EvCfg.cfgType : EvCfg → String
  | .sCfg s => s
  | .oCfg ty _ => ty

/-- The normalization of `addEvent` (yeh.js lines 756-758): a bare string
becomes `{ type: eventConfig }`. -/
def normalizeConfig : EvCfg → EvCfg
  | .sCfg s => .oCfg s 0
  | .oCfg ty p => .oCfg ty p

/-- The `eventMapping` registry: a JavaScript object, i.e. an
insertion-ordered association list whose keys are unique. -/
abbrev Registry := List (String × List EvCfg)

/-- Property read `eventMapping[target]`. -/
def regGet : Registry → String → Option (List EvCfg)
  | [], _ => none
  | e :: rest, target => if e.1 = target then some e.2 else regGet rest target

/-- Property write `eventMapping[target] = v`. -/
def regSet : Registry → String → List EvCfg → Registry
  | [], target, v => [(target, v)]
  | e :: rest, target, v =>
    if e.1 = target then (target, v) :: rest else e :: regSet rest target v

/-- `delete eventMapping[target]`. -/
def regDelete : Registry → String → Registry
  | [], _ => []
  | e :: rest, target =>
    if e.1 = target then regDelete rest target else e :: regDelete rest target

/-- `YEH.hasEvent` (yeh.js lines 815-822). -/
def hasEvent (reg : Registry) (target eventType : String) : Bool :=
  match regGet reg target with
  | none => false
  | some cfgs => cfgs.any (fun c => c.cfgType = eventType)

/-- `YEH.addEvent` (yeh.js lines 754-775): the registry transition together
with the returned boolean (the actual listener attachment is a host side
effect outside the registry). -/
def addEvent (reg : Registry) (target : String) (eventConfig : EvCfg) :
    Bool × Registry :=
  let normalizedConfig := normalizeConfig eventConfig
  if hasEvent reg target normalizedConfig.cfgType then (false, reg)
  else
    match regGet reg target with
    | none => (true, regSet reg target [normalizedConfig])
    | some cfgs => (true, regSet reg target (cfgs ++ [normalizedConfig]))

/-- `YEH.removeEvent` (yeh.js lines 783-807): filter out the matching
type, report false when nothing was removed, delete the key when the
filtered list is empty. -/
def removeEvent (reg : Registry) (target eventType : String) :
    Bool × Registry :=
  match regGet reg target with
  | none => (false, reg)
  | some cfgs =>
    let filtered := cfgs.filter (fun c => !(c.cfgType = eventType))
    if filtered.length = cfgs.length then (false, regSet reg target filtered)
    else if filtered.length = 0 then (true, regDelete reg target)
    else (true, regSet reg target filtered)

end YEH

/-- Writing back the value just read leaves the registry unchanged. -/
theorem YEH.regSet_self :
    ∀ (reg : YEH.Registry) (target : String) (cfgs : List YEH.EvCfg),
      YEH.regGet reg target = some cfgs → YEH.regSet reg target cfgs = reg := by
  intro reg
  induction reg with
  | nil => intro target cfgs h; simp [YEH.regGet] at h
  | cons e rest ih =>
    intro target cfgs h
    by_cases he : e.1 = target
    · rw [YEH.regGet, if_pos he] at h
      rw [YEH.regSet, if_pos he]
      injection h with h2
      rw [← h2, ← he]
    · rw [YEH.regGet, if_neg he] at h
      rw [YEH.regSet, if_neg he, ih target cfgs h]

/-- Reading the key just written returns the written value. -/
theorem YEH.regGet_set_same :
    ∀ (reg : YEH.Registry) (target : String) (v : List YEH.EvCfg),
      YEH.regGet (YEH.regSet reg target v) target = some v := by
  intro reg
  induction reg with
  | nil => intro target v; simp [YEH.regSet, YEH.regGet]
  | cons e rest ih =>
    intro target v
    by_cases he : e.1 = target
    · rw [YEH.regSet, if_pos he, YEH.regGet, if_pos rfl]
    · rw [YEH.regSet, if_neg he, YEH.regGet, if_neg he, ih]

/-- Writing one key leaves every other key unchanged. -/
theorem YEH.regGet_set_other :
    ∀ (reg : YEH.Registry) (target other : String) (v : List YEH.EvCfg),
      other ≠ target →
      YEH.regGet (YEH.regSet reg target v) other = YEH.regGet reg other := by
  intro reg
  induction reg with
  | nil =>
    intro target other v hne
    simp [YEH.regSet, YEH.regGet]
    intro hc
    exact absurd hc.symm hne
  | cons e rest ih =>
    intro target other v hne
    by_cases he : e.1 = target
    · rw [YEH.regSet, if_pos he, YEH.regGet, YEH.regGet,
        if_neg (fun hc : target = other => hne hc.symm), if_neg (he ▸ hne ∘ Eq.symm)]
    · rw [YEH.regSet, if_neg he]
      by_cases heo : e.1 = other
      · rw [YEH.regGet, if_pos heo, YEH.regGet, if_pos heo]
      · rw [YEH.regGet, if_neg heo, YEH.regGet, if_neg heo, ih target other v hne]

/-- Deleting a key removes it. -/
theorem YEH.regGet_delete_same :
    ∀ (reg : YEH.Registry) (target : String),
      YEH.regGet (YEH.regDelete reg target) target = none := by
  intro reg
  induction reg with
  | nil => intro target; simp [YEH.regDelete, YEH.regGet]
  | cons e rest ih =>
    intro target
    by_cases he : e.1 = target
    · rw [YEH.regDelete, if_pos he, ih]
    · rw [YEH.regDelete, if_neg he, YEH.regGet, if_neg he, ih]

/-- Deleting one key leaves every other key unchanged. -/
theorem YEH.regGet_delete_other :
    ∀ (reg : YEH.Registry) (target other : String), other ≠ target →
      YEH.regGet (YEH.regDelete reg target) other = YEH.regGet reg other := by
  intro reg
  induction reg with
  | nil => intro target other hne; rfl
  | cons e rest ih =>
    intro target other hne
    by_cases he : e.1 = target
    · rw [YEH.regDelete, if_pos he, YEH.regGet,
        if_neg (fun hc : e.1 = other => hne (he ▸ hc ▸ rfl)), ih target other hne]
    · rw [YEH.regDelete, if_neg he]
      by_cases heo : e.1 = other
      · rw [YEH.regGet, if_pos heo, YEH.regGet, if_pos heo]
      · rw [YEH.regGet, if_neg heo, YEH.regGet, if_neg heo, ih target other hne]

/-- C8: `addEvent` returns false and leaves the registry unchanged when the
(target, type) pair is already registered, and returns true after appending
the normalized registration to the target's list otherwise; `removeEvent`
returns false and changes nothing when no matching registration exists, and
returns true with every matching registration removed (and all other keys
untouched) otherwise. -/
theorem c8_add_remove_spec (reg : YEH.Registry) (target ty : String)
    (ec : YEH.EvCfg) :
    (YEH.hasEvent reg target (YEH.normalizeConfig ec).cfgType = true →
      YEH.addEvent reg target ec = (false, reg))
    ∧ (YEH.hasEvent reg target (YEH.normalizeConfig ec).cfgType = false →
        (YEH.addEvent reg target ec).1 = true
        ∧ YEH.regGet (YEH.addEvent reg target ec).2 target
            = some (((YEH.regGet reg target).getD [])
                ++ [YEH.normalizeConfig ec])
        ∧ ∀ other, other ≠ target →
            YEH.regGet (YEH.addEvent reg target ec).2 other
              = YEH.regGet reg other)
    ∧ (YEH.hasEvent reg target ty = false →
        YEH.removeEvent reg target ty = (false, reg))
    ∧ (YEH.hasEvent reg target ty = true →
        (YEH.removeEvent reg target ty).1 = true
        ∧ YEH.hasEvent (YEH.removeEvent reg target ty).2 target ty = false
        ∧ ∀ other, other ≠ target →
            YEH.regGet (YEH.removeEvent reg target ty).2 other
              = YEH.regGet reg other) := by
  refine ⟨?_, ?_, ?_, ?_⟩
  · intro h
    unfold YEH.addEvent
    simp [h]
  · intro h
    unfold YEH.addEvent
    simp only [h, Bool.false_eq_true, if_false]
    cases hget : YEH.regGet reg target with
    | none =>
      refine ⟨rfl, ?_, ?_⟩
      · simp [YEH.regGet_set_same, hget]
      · intro other hne
        simp [YEH.regGet_set_other reg target other _ hne]
    | some cfgs =>
      refine ⟨rfl, ?_, ?_⟩
      · simp [YEH.regGet_set_same, hget]
      · intro other hne
        simp [YEH.regGet_set_other reg target other _ hne]
  · intro h
    cases hget : YEH.regGet reg target with
    | none =>
      show (match YEH.regGet reg target with
        | none => (false, reg)
        | some cfgs =>
          let filtered := cfgs.filter (fun c => !(c.cfgType = ty));
          if filtered.length = cfgs.length then
            (false, YEH.regSet reg target filtered)
          else if filtered.length = 0 then (true, YEH.regDelete reg target)
          else (true, YEH.regSet reg target filtered)) = (false, reg)
      rw [hget]
    | some cfgs =>
      have h2 : cfgs.any (fun c => c.cfgType = ty) = false := by
        unfold YEH.hasEvent at h
        rw [hget] at h
        exact h
      have hall : ∀ c ∈ cfgs, (!(c.cfgType = ty)) = true := by
        intro c hc
        by_cases hcy : c.cfgType = ty
        · exfalso
          have hany : cfgs.any (fun c => c.cfgType = ty) = true :=
            List.any_eq_true.mpr ⟨c, hc, by simp [hcy]⟩
          rw [h2] at hany
          exact Bool.false_ne_true hany
        · simp [hcy]
      have hfil : cfgs.filter (fun c => !(c.cfgType = ty)) = cfgs :=
        List.filter_eq_self.mpr hall
      have hred : YEH.removeEvent reg target ty
          = (false, YEH.regSet reg target cfgs) := by
        unfold YEH.removeEvent
        rw [hget]
        simp [hfil]
      rw [hred, YEH.regSet_self reg target cfgs hget]
  · intro h
    cases hget : YEH.regGet reg target with
    | none =>
      unfold YEH.hasEvent at h
      rw [hget] at h
      exact absurd h (by simp)
    | some cfgs =>
      have h2 : cfgs.any (fun c => c.cfgType = ty) = true := by
        unfold YEH.hasEvent at h
        rw [hget] at h
        exact h
      obtain ⟨c0, hc0, hc0ty⟩ := List.any_eq_true.mp h2
      have hlt : (cfgs.filter (fun c => !(c.cfgType = ty))).length
          < cfgs.length := by
        refine List.length_filter_lt_length_iff_exists.mpr ⟨c0, hc0, ?_⟩
        simp at hc0ty
        simp [hc0ty]
      have hne : ¬((cfgs.filter (fun c => !(c.cfgType = ty))).length
          = cfgs.length) := by omega
      have hred : YEH.removeEvent reg target ty
          = (if (cfgs.filter (fun c => !(c.cfgType = ty))).length = 0 then
               (true, YEH.regDelete reg target)
             else (true, YEH.regSet reg target
               (cfgs.filter (fun c => !(c.cfgType = ty))))) := by
        unfold YEH.removeEvent
        rw [hget]
        simp only [if_neg hne]
      rw [hred]
      have hnomatch : ∀ (l : List YEH.EvCfg),
          (l.filter (fun c => !(c.cfgType = ty))).any
            (fun c => c.cfgType = ty) = false := by
        intro l
        rw [Bool.eq_false_iff]
        intro hbad
        obtain ⟨c, hcmem, hcty⟩ := List.any_eq_true.mp hbad
        have := (List.mem_filter.mp hcmem).2
        simp at this hcty
        exact this hcty
      by_cases hempty : (cfgs.filter (fun c => !(c.cfgType = ty))).length = 0
      · rw [if_pos hempty]
        refine ⟨rfl, ?_, ?_⟩
        · unfold YEH.hasEvent
          rw [YEH.regGet_delete_same]
        · intro other hneq
          exact YEH.regGet_delete_other reg target other hneq
      · rw [if_neg hempty]
        refine ⟨rfl, ?_, ?_⟩
        · unfold YEH.hasEvent
          rw [YEH.regGet_set_same]
          exact hnomatch cfgs
        · intro other hneq
          exact YEH.regGet_set_other reg target other _ hneq

/-- Witness for C8 on a concrete registry holding a click registration on
"#a": duplicate add is refused without change, a fresh add appends, a
remove of an absent type is refused without change, and a matching remove
succeeds and erases the registration. -/
theorem c8_add_remove_spec_witness :
    YEH.addEvent [("#a", [.oCfg "click" 0])] "#a" (.sCfg "click")
        = (false, [("#a", [.oCfg "click" 0])])
    ∧ (YEH.addEvent [("#a", [.oCfg "click" 0])] "#a" (.sCfg "input")).1 = true
    ∧ YEH.regGet (YEH.addEvent [("#a", [.oCfg "click" 0])] "#a"
        (.sCfg "input")).2 "#a" = some [.oCfg "click" 0, .oCfg "input" 0]
    ∧ YEH.removeEvent [("#a", [.oCfg "click" 0])] "#a" "scroll"
        = (false, [("#a", [.oCfg "click" 0])])
    ∧ (YEH.removeEvent [("#a", [.oCfg "click" 0])] "#a" "click").1 = true
    ∧ YEH.hasEvent (YEH.removeEvent [("#a", [.oCfg "click" 0])] "#a"
        "click").2 "#a" "click" = false := by
  refine ⟨?_, ?_, ?_, ?_, ?_, ?_⟩
  · exact (c8_add_remove_spec [("#a", [.oCfg "click" 0])] "#a" "click"
      (.sCfg "click")).1 (by rfl)
  · exact ((c8_add_remove_spec [("#a", [.oCfg "click" 0])] "#a" "click"
      (.sCfg "input")).2.1 (by rfl)).1
  · exact (((c8_add_remove_spec [("#a", [.oCfg "click" 0])] "#a" "click"
      (.sCfg "input")).2.1 (by rfl)).2.1).trans (by rfl)
  · exact (c8_add_remove_spec [("#a", [.oCfg "click" 0])] "#a" "scroll"
      (.sCfg "click")).2.2.1 (by rfl)
  · exact ((c8_add_remove_spec [("#a", [.oCfg "click" 0])] "#a" "click"
      (.sCfg "click")).2.2.2 (by rfl)).1
  · exact ((c8_add_remove_spec [("#a", [.oCfg "click" 0])] "#a" "click"
      (.sCfg "click")).2.2.2 (by rfl)).2.1

namespace YEH

/-- The destroy-relevant state of an engine instance: the collections
`destroy` clears (yeh.js lines 1037-1050) and the fields it leaves alone
(the configuration mapping and the interaction flag); values irrelevant to
the transition are abstracted to opaque numbers. -/
structure InstanceState where
  eventListeners : List (String × Nat)
  eventHandlerMap : List (String × List HandlerInfo)
  distanceCache : DistCache
  throttleTimers : List (String × Nat)
  debounceTimers : List (String × Nat)
  eventMapping : Registry
  userHasInteracted : Bool
deriving DecidableEq, Repr

/-- `YEH.destroy` (yeh.js lines 1024-1053): after removing the host
listeners (a host side effect), clear the listener tracking map, the
per-event handler map, the distance cache and both timer maps (cancelling
every stored timer). -/
def destroy (st : InstanceState) : InstanceState :=
  { eventListeners := [],
    eventHandlerMap := [],
    distanceCache := [],
    throttleTimers := [],
    debounceTimers := [],
    eventMapping := st.eventMapping,
    userHasInteracted := st.userHasInteracted }

end YEH

/-- C9: a single `destroy` empties the listener tracking map, the per-event
handler map, the distance cache and both timer maps — no partial state
remains — and `destroy` is idempotent: a second call changes nothing and
yields the same empty post-state. -/
theorem c9_destroy_idempotent (st : YEH.InstanceState) :
    (YEH.destroy st).eventListeners = []
    ∧ (YEH.destroy st).eventHandlerMap = []
    ∧ (YEH.destroy st).distanceCache = []
    ∧ (YEH.destroy st).throttleTimers = []
    ∧ (YEH.destroy st).debounceTimers = []
    ∧ YEH.destroy (YEH.destroy st) = YEH.destroy st := by
  refine ⟨rfl, rfl, rfl, rfl, rfl, rfl⟩

/-- C10: the interaction flag starts false; handling an event turns it on
exactly when the flag was already set or the type is not in the passive
list (so a passive-listed type leaves it unchanged, and it never resets by
event handling); `hasUserInteracted` reads the flag without changing state;
`resetUserInteracted` forces it back to false. -/
theorem c10_user_interaction :
    YEH.initialUserHasInteracted = false
    ∧ (∀ (pe : List String) (flag : Bool) (ty : String),
        YEH.checkUserInteraction pe flag ty = (flag || !(pe.contains ty)))
    ∧ (∀ (pe : List String) (flag : Bool) (ty : String),
        (YEH.checkUserInteraction pe flag ty = true
          ↔ (flag = true ∨ pe.contains ty = false)))
    ∧ (∀ flag : Bool, YEH.hasUserInteracted flag = (flag, flag))
    ∧ (∀ flag : Bool, YEH.resetUserInteracted flag = false) := by
  refine ⟨rfl, ?_, ?_, fun _ => rfl, fun _ => rfl⟩
  · intro pe flag ty
    unfold YEH.checkUserInteraction
    cases flag <;> cases hmem : pe.contains ty <;> simp [hmem]
  · intro pe flag ty
    unfold YEH.checkUserInteraction
    cases flag <;> cases hmem : pe.contains ty <;> simp [hmem]

namespace YEH

/-- A JavaScript value, as far as configuration validation observes it
(numbers as integers). -/
inductive JVal where
  | jstr (s : String)
  | jnum (n : Int)
  | jbool (b : Bool)
  | jnull
  | jundefined
  | jarr (elems : List JVal)
  | jobj (fields : List (String × JVal))

/-- `typeof`. -/
def jTypeof : JVal → String
  | .jstr _ => "string"
  | .jnum _ => "number"
  | .jbool _ => "boolean"
  | .jnull => "object"
  | .jundefined => "undefined"
  | .jarr _ => "object"
  | .jobj _ => "object"

/-- JavaScript truthiness. -/
def jTruthy : JVal → Bool
  | .jstr s => !(s = "")
  | .jnum n => !(n = 0)
  | .jbool b => b
  | .jnull => false
  | .jundefined => false
  | .jarr _ => true
  | .jobj _ => true

/-- Whether the value is `undefined`. -/
def jIsUndefined : JVal → Bool
  | .jundefined => true
  | _ => false

/-- First-match lookup in an object's (unique-keyed) field list. -/
def jLookup : List (String × JVal) → String → JVal
  | [], _ => .jundefined
  | f :: rest, name => if f.1 = name then f.2 else jLookup rest name

/-- Named property access `v.name` (`undefined` on non-objects: the
validators read only named properties, never numeric indices). -/
def jGet (v : JVal) (name : String) : JVal :=
  match v with
  | .jobj fields => jLookup fields name
  | _ => .jundefined

/-- `Object.entries`: an object's fields, or an array's elements keyed by
their stringified indices. -/
def jEntries : JVal → List (String × JVal)
  | .jobj fields => fields
  | .jarr xs => xs.enum.map (fun p => (toString p.1, p.2))
  | _ => []

/-- A number that fails the `value <= 0` test (false on non-numbers, whose
rejection the type test handles). -/
def jNonPositiveNum : JVal → Bool
  | .jnum n => decide (n ≤ 0)
  | _ => false

/-- A string that trims to nothing (false on non-strings). -/
def jBlankStr : JVal → Bool
  | .jstr s => s.trim = ""
  | _ => false

/-- Whether an `Except` result is an error (a throw). -/
def isErr : Except String Unit → Bool
  | .error _ => true
  | .ok _ => false

/-- `YEH.validateEventConfig` (yeh.js lines 433-471). -/
def validateEventConfig (selector : String) (idx : Nat) (ec : JVal) :
    Except String Unit :=
  if jTypeof ec = "string" then
    match ec with
    | .jstr s =>
      if s.trim = "" then .error "event type cannot be empty" else .ok ()
    | _ => .ok ()
  else if !(jTruthy ec) || !(jTypeof ec = "object") then
    .error "event config must be string or object"
  else if !(jTruthy (jGet ec "type"))
      || !(jTypeof (jGet ec "type") = "string") then
    .error "event config must have a valid type property"
  else if (!(jIsUndefined (jGet ec "throttle")))
      && (!(jTypeof (jGet ec "throttle") = "number")
          || jNonPositiveNum (jGet ec "throttle")) then
    .error "throttle value must be a positive number"
  else if (!(jIsUndefined (jGet ec "debounce")))
      && (!(jTypeof (jGet ec "debounce") = "number")
          || jNonPositiveNum (jGet ec "debounce")) then
    .error "debounce value must be a positive number"
  else if jTruthy (jGet ec "throttle") && jTruthy (jGet ec "debounce") then
    .error "cannot have both throttle and debounce"
  else if (!(jIsUndefined (jGet ec "handler")))
      && !(jTypeof (jGet ec "handler") = "string") then
    .error "handler must be a string"
  else .ok ()

/-- The `config.forEach(validateEventConfig)` loop: first throw aborts. -/
def validateConfigList (selector : String) : Nat → List JVal →
    Except String Unit
  | _, [] => .ok ()
  | idx, ec :: rest =>
    match validateEventConfig selector idx ec with
    | .error e => .error e
    | .ok _ => validateConfigList selector (idx + 1) rest

/-- `YEH.validateSelectorConfig` (yeh.js lines 411-427); object keys are
always strings, so the `typeof selector` test reduces to the emptiness
test. -/
def validateSelectorConfig (selector : String) (config : JVal) :
    Except String Unit :=
  if selector = "" then .error "selector must be a non-empty string"
  else
    match config with
    | .jarr xs =>
      if xs.length = 0 then .error "config cannot be empty"
      else validateConfigList selector 0 xs
    | _ => .error "config must be an array"

/-- The `Object.entries(eventMapping)` loop of `validateConfiguration`. -/
def validateEntries : List (String × JVal) → Except String Unit
  | [] => .ok ()
  | e :: rest =>
    match validateSelectorConfig e.1 e.2 with
    | .error msg => .error msg
    | .ok _ => validateEntries rest

/-- The option fields `validateActionableConfig` inspects (yeh.js lines
477-518); absent fields are `undefined`. -/
structure CfgModel where
  actionableAttributes : JVal
  actionableClasses : JVal
  actionableTags : JVal
  enableActionableTargets : JVal
  handlerPrefix : JVal

/-- The per-element loop of the actionable-array checks: each entry must be
a string with a non-blank trim. -/
def validateStrElems : List JVal → Except String Unit
  | [] => .ok ()
  | x :: rest =>
    if (!(jTypeof x = "string")) || jBlankStr x then
      .error "must contain non-empty strings"
    else validateStrElems rest

/-- One actionable option: when defined it must be an array of non-blank
strings. -/
def validateStrArray (v : JVal) : Except String Unit :=
  if jIsUndefined v then .ok ()
  else
    match v with
    | .jarr xs => validateStrElems xs
    | _ => .error "must be an array of strings"

/-- `YEH.validateActionableConfig` (yeh.js lines 477-518). -/
def validateActionableConfig (cfg : CfgModel) : Except String Unit :=
  match validateStrArray cfg.actionableAttributes with
  | .error e => .error e
  | .ok _ =>
    match validateStrArray cfg.actionableClasses with
    | .error e => .error e
    | .ok _ =>
      match validateStrArray cfg.actionableTags with
      | .error e => .error e
      | .ok _ =>
        if (!(jIsUndefined cfg.enableActionableTargets))
            && !(jTypeof cfg.enableActionableTargets = "boolean") then
          .error "enableActionableTargets must be a boolean"
        else if (!(jIsUndefined cfg.handlerPrefix))
            && !(jTypeof cfg.handlerPrefix = "string") then
          .error "handlerPrefix must be a string"
        else .ok ()

/-- `YEH.validateConfiguration` (yeh.js lines 395-405). -/
def validateConfiguration (em : JVal) (cfg : CfgModel) :
    Except String Unit :=
  if !(jTruthy em) || !(jTypeof em = "object") then
    .error "eventMapping must be a non-null object"
  else
    match validateEntries (jEntries em) with
    | .error e => .error e
    | .ok _ => validateActionableConfig cfg

/-- The constructor (yeh.js lines 253-258): with validation enabled it
validates before registering anything, so an error aborts construction and
the registration result is produced only on the ok path. -/
def constructModel (em : JVal) (cfg : CfgModel) (registrations : Nat) :
    Except String Nat :=
  match validateConfiguration em cfg with
  | .error e => .error e
  | .ok _ => .ok registrations

/-- Whether construction threw. -/
def isErrN : Except String Nat → Bool
  | .error _ => true
  | .ok _ => false

/-- A malformed event-config entry, per the (amended) claim: a blank string
entry; a non-string non-object entry; an object without a truthy string
type; a throttle or debounce present but not a positive number; both
throttle and debounce set; a handler present but not a string. -/
def badEventEntry (ec : JVal) : Bool :=
  match ec with
  | .jstr s => s.trim = ""
  | .jobj _ =>
    (!(jTruthy (jGet ec "type")) || !(jTypeof (jGet ec "type") = "string"))
    || ((!(jIsUndefined (jGet ec "throttle")))
        && (!(jTypeof (jGet ec "throttle") = "number")
            || jNonPositiveNum (jGet ec "throttle")))
    || ((!(jIsUndefined (jGet ec "debounce")))
        && (!(jTypeof (jGet ec "debounce") = "number")
            || jNonPositiveNum (jGet ec "debounce")))
    || (jTruthy (jGet ec "throttle") && jTruthy (jGet ec "debounce"))
    || ((!(jIsUndefined (jGet ec "handler")))
        && !(jTypeof (jGet ec "handler") = "string"))
  | _ => true

/-- A malformed selector binding: empty selector key, non-array or empty
config, or some malformed entry. -/
def badSelectorEntry (selector : String) (config : JVal) : Bool :=
  (selector = "")
  || (match config with
      | .jarr xs => (xs.length = 0) || xs.any badEventEntry
      | _ => true)

/-- A malformed event mapping: not a truthy object, or some malformed
selector binding. -/
def badMapping (em : JVal) : Bool :=
  (!(jTruthy em && jTypeof em = "object"))
  || (jEntries em).any (fun e => badSelectorEntry e.1 e.2)

/-- A malformed actionable string-array option. -/
def badStrArray (v : JVal) : Bool :=
  (!(jIsUndefined v))
    && (match v with
        | .jarr xs => xs.any (fun x => (!(jTypeof x = "string")) || jBlankStr x)
        | _ => true)

/-- Malformed actionable-target / handlerPrefix options. -/
def badActionable (cfg : CfgModel) : Bool :=
  badStrArray cfg.actionableAttributes
  || badStrArray cfg.actionableClasses
  || badStrArray cfg.actionableTags
  || ((!(jIsUndefined cfg.enableActionableTargets))
      && !(jTypeof cfg.enableActionableTargets = "boolean"))
  || ((!(jIsUndefined cfg.handlerPrefix))
      && !(jTypeof cfg.handlerPrefix = "string"))

/-- The malformedness conditions exactly as the ORIGINAL claim lists them:
mapping not a non-null object, non-string selector (unrealizable: object
keys are strings), non-array or empty config, entry without a valid type,
throttle/debounce present but not a positive number, both set.  The
handler and actionable-option conditions are deliberately absent. -/
def origClaimBadEntry (ec : JVal) : Bool :=
  match ec with
  | .jstr s => s.trim = ""
  | .jobj _ =>
    (!(jTruthy (jGet ec "type")) || !(jTypeof (jGet ec "type") = "string"))
    || ((!(jIsUndefined (jGet ec "throttle")))
        && (!(jTypeof (jGet ec "throttle") = "number")
            || jNonPositiveNum (jGet ec "throttle")))
    || ((!(jIsUndefined (jGet ec "debounce")))
        && (!(jTypeof (jGet ec "debounce") = "number")
            || jNonPositiveNum (jGet ec "debounce")))
    || (jTruthy (jGet ec "throttle") && jTruthy (jGet ec "debounce"))
  | _ => true

/-- The original claim's throw conditions over the whole mapping. -/
def origClaimBad (em : JVal) : Bool :=
  (!(jTruthy em && jTypeof em = "object"))
  || (jEntries em).any (fun e =>
      (e.1 = "")
      || (match e.2 with
          | .jarr xs => (xs.length = 0) || xs.any origClaimBadEntry
          | _ => true))

end YEH

/-- C7 counterexample: the event mapping binding "#a" to the single config
object with a valid type "click" and the non-string handler 42 satisfies
none of the claim's listed throw conditions, yet `validateConfiguration`
(with benign options) throws. -/
theorem c7_counterexample :
    YEH.isErr (YEH.validateConfiguration
        (.jobj [("#a", .jarr [.jobj [("type", .jstr "click"),
          ("handler", .jnum 42)]])])
        { actionableAttributes := .jundefined, actionableClasses := .jundefined,
          actionableTags := .jundefined, enableActionableTargets := .jundefined,
          handlerPrefix := .jundefined }) = true
    ∧ YEH.origClaimBad
        (.jobj [("#a", .jarr [.jobj [("type", .jstr "click"),
          ("handler", .jnum 42)]])]) = false := by
  constructor
  · rfl
  · rfl

/-- Throw detection distributes over a guard. -/
theorem YEH.isErr_ite (c : Bool) (m : String) (rest : Except String Unit) :
    YEH.isErr (if c = true then .error m else rest) = (c || YEH.isErr rest) := by
  cases c <;> simp [YEH.isErr]

/-- A single event config throws exactly when the entry is malformed. -/
theorem YEH.validateEventConfig_isErr (sel : String) (idx : Nat)
    (ec : YEH.JVal) :
    YEH.isErr (YEH.validateEventConfig sel idx ec) = YEH.badEventEntry ec := by
  cases ec with
  | jstr s =>
    by_cases h : s.trim = "" <;>
      simp [YEH.validateEventConfig, YEH.badEventEntry, YEH.jTypeof,
        YEH.isErr, h]
  | jnum n =>
    simp [YEH.validateEventConfig, YEH.badEventEntry, YEH.jTypeof, YEH.isErr]
  | jbool b =>
    simp [YEH.validateEventConfig, YEH.badEventEntry, YEH.jTypeof, YEH.isErr]
  | jnull => rfl
  | jundefined => rfl
  | jarr xs => rfl
  | jobj fields =>
    simp only [YEH.validateEventConfig]
    rw [if_neg (by simp [YEH.jTypeof])]
    rw [if_neg (by simp [YEH.jTruthy, YEH.jTypeof])]
    rw [YEH.isErr_ite, YEH.isErr_ite, YEH.isErr_ite, YEH.isErr_ite,
      YEH.isErr_ite]
    simp [YEH.badEventEntry, YEH.isErr, Bool.or_assoc]

/-- The forEach loop throws exactly when some entry is malformed. -/
theorem YEH.validateConfigList_isErr (sel : String) :
    ∀ (xs : List YEH.JVal) (idx : Nat),
      YEH.isErr (YEH.validateConfigList sel idx xs)
        = xs.any YEH.badEventEntry := by
  intro xs
  induction xs with
  | nil => intro idx; rfl
  | cons x rest ih =>
    intro idx
    rw [YEH.validateConfigList]
    cases hv : YEH.validateEventConfig sel idx x with
    | error e =>
      have hb : YEH.badEventEntry x = true := by
        rw [← YEH.validateEventConfig_isErr sel idx x, hv]
        rfl
      simp [YEH.isErr, hb]
    | ok u =>
      have hb : YEH.badEventEntry x = false := by
        rw [← YEH.validateEventConfig_isErr sel idx x, hv]
        rfl
      simp [hb, ih (idx + 1)]

/-- A selector binding throws exactly when it is malformed. -/
theorem YEH.validateSelectorConfig_isErr (sel : String) (config : YEH.JVal) :
    YEH.isErr (YEH.validateSelectorConfig sel config)
      = YEH.badSelectorEntry sel config := by
  by_cases hsel : sel = ""
  · cases config <;>
      simp [YEH.validateSelectorConfig, YEH.badSelectorEntry, hsel, YEH.isErr]
  · cases config with
    | jarr xs =>
      by_cases hlen : xs.length = 0
      · simp [YEH.validateSelectorConfig, YEH.badSelectorEntry, hsel, hlen,
          YEH.isErr]
      · simp [YEH.validateSelectorConfig, YEH.badSelectorEntry, hsel, hlen,
          YEH.validateConfigList_isErr]
    | jstr s =>
      simp [YEH.validateSelectorConfig, YEH.badSelectorEntry, hsel, YEH.isErr]
    | jnum n =>
      simp [YEH.validateSelectorConfig, YEH.badSelectorEntry, hsel, YEH.isErr]
    | jbool b =>
      simp [YEH.validateSelectorConfig, YEH.badSelectorEntry, hsel, YEH.isErr]
    | jnull =>
      simp [YEH.validateSelectorConfig, YEH.badSelectorEntry, hsel, YEH.isErr]
    | jundefined =>
      simp [YEH.validateSelectorConfig, YEH.badSelectorEntry, hsel, YEH.isErr]
    | jobj fs =>
      simp [YEH.validateSelectorConfig, YEH.badSelectorEntry, hsel, YEH.isErr]

/-- The mapping-entries loop throws exactly when some binding is
malformed. -/
theorem YEH.validateEntries_isErr :
    ∀ (entries : List (String × YEH.JVal)),
      YEH.isErr (YEH.validateEntries entries)
        = entries.any (fun e => YEH.badSelectorEntry e.1 e.2) := by
  intro entries
  induction entries with
  | nil => rfl
  | cons e rest ih =>
    rw [YEH.validateEntries]
    cases hv : YEH.validateSelectorConfig e.1 e.2 with
    | error msg =>
      have hb : YEH.badSelectorEntry e.1 e.2 = true := by
        rw [← YEH.validateSelectorConfig_isErr e.1 e.2, hv]
        rfl
      simp [YEH.isErr, hb]
    | ok u =>
      have hb : YEH.badSelectorEntry e.1 e.2 = false := by
        rw [← YEH.validateSelectorConfig_isErr e.1 e.2, hv]
        rfl
      simp [hb, ih]

/-- The string-array element loop throws exactly when some element is not
a non-blank string. -/
theorem YEH.validateStrElems_isErr :
    ∀ (xs : List YEH.JVal),
      YEH.isErr (YEH.validateStrElems xs)
        = xs.any (fun x => (!(YEH.jTypeof x = "string")) || YEH.jBlankStr x) := by
  intro xs
  induction xs with
  | nil => rfl
  | cons x rest ih =>
    rw [YEH.validateStrElems]
    by_cases h : ((!(YEH.jTypeof x = "string")) || YEH.jBlankStr x) = true
    · simp [h, YEH.isErr]
    · have h2 : ((!(YEH.jTypeof x = "string")) || YEH.jBlankStr x) = false :=
        Bool.eq_false_iff.mpr h
      simp [h2, ih]

/-- One actionable option throws exactly when malformed. -/
theorem YEH.validateStrArray_isErr (v : YEH.JVal) :
    YEH.isErr (YEH.validateStrArray v) = YEH.badStrArray v := by
  cases v with
  | jarr xs =>
    rw [show YEH.validateStrArray (.jarr xs) = YEH.validateStrElems xs from by
      simp [YEH.validateStrArray, YEH.jIsUndefined]]
    rw [YEH.validateStrElems_isErr]
    simp [YEH.badStrArray, YEH.jIsUndefined]
  | jstr s => rfl
  | jnum n => rfl
  | jbool b => rfl
  | jnull => rfl
  | jundefined => rfl
  | jobj fs => rfl

/-- The actionable-options validator throws exactly when some option is
malformed. -/
theorem YEH.validateActionableConfig_isErr (cfg : YEH.CfgModel) :
    YEH.isErr (YEH.validateActionableConfig cfg) = YEH.badActionable cfg := by
  unfold YEH.validateActionableConfig YEH.badActionable
  cases h1 : YEH.validateStrArray cfg.actionableAttributes with
  | error e =>
    have hb1 : YEH.badStrArray cfg.actionableAttributes = true := by
      rw [← YEH.validateStrArray_isErr, h1]
      rfl
    simp [YEH.isErr, hb1]
  | ok u1 =>
    have hb1 : YEH.badStrArray cfg.actionableAttributes = false := by
      rw [← YEH.validateStrArray_isErr, h1]
      rfl
    cases h2 : YEH.validateStrArray cfg.actionableClasses with
    | error e =>
      have hb2 : YEH.badStrArray cfg.actionableClasses = true := by
        rw [← YEH.validateStrArray_isErr, h2]
        rfl
      simp [YEH.isErr, hb1, hb2]
    | ok u2 =>
      have hb2 : YEH.badStrArray cfg.actionableClasses = false := by
        rw [← YEH.validateStrArray_isErr, h2]
        rfl
      cases h3 : YEH.validateStrArray cfg.actionableTags with
      | error e =>
        have hb3 : YEH.badStrArray cfg.actionableTags = true := by
          rw [← YEH.validateStrArray_isErr, h3]
          rfl
        simp [YEH.isErr, hb1, hb2, hb3]
      | ok u3 =>
        have hb3 : YEH.badStrArray cfg.actionableTags = false := by
          rw [← YEH.validateStrArray_isErr, h3]
          rfl
        rw [YEH.isErr_ite, YEH.isErr_ite]
        simp [YEH.isErr, hb1, hb2, hb3, Bool.or_assoc]

/-- C7 (amended): with validation enabled, construction throws exactly when
the event mapping is malformed (not a non-null object; an empty selector
key; a non-array or empty config; an entry that is a blank string, a
non-string non-object, or an object without a truthy string type; a
throttle/debounce value present but not a positive number; both throttle
and debounce set; a handler present but not a string) or when an
actionable-target / handlerPrefix option is malformed — and a throw aborts
construction before any registration is produced. -/
theorem c7_validation_iff (em : YEH.JVal) (cfg : YEH.CfgModel) :
    YEH.isErr (YEH.validateConfiguration em cfg)
        = (YEH.badMapping em || YEH.badActionable cfg)
    ∧ (∀ registrations : Nat,
        YEH.isErrN (YEH.constructModel em cfg registrations)
          = YEH.isErr (YEH.validateConfiguration em cfg)) := by
  constructor
  · by_cases hshape : ((!(YEH.jTruthy em)) || !(YEH.jTypeof em = "object"))
        = true
    · have hmap : YEH.badMapping em = true := by
        unfold YEH.badMapping
        rw [Bool.not_and, hshape]
        rfl
      unfold YEH.validateConfiguration
      rw [if_pos hshape]
      simp [YEH.isErr, hmap]
    · have hfalse : ((!(YEH.jTruthy em)) || !(YEH.jTypeof em = "object"))
          = false := Bool.eq_false_iff.mpr hshape
      unfold YEH.validateConfiguration YEH.badMapping
      rw [if_neg hshape, Bool.not_and, hfalse]
      simp only [Bool.false_or]
      cases he : YEH.validateEntries (YEH.jEntries em) with
      | error e =>
        have hany : (YEH.jEntries em).any
            (fun e => YEH.badSelectorEntry e.1 e.2) = true := by
          rw [← YEH.validateEntries_isErr, he]
          rfl
        simp [YEH.isErr, hany]
      | ok u =>
        have hany : (YEH.jEntries em).any
            (fun e => YEH.badSelectorEntry e.1 e.2) = false := by
          rw [← YEH.validateEntries_isErr, he]
          rfl
        simp [hany, YEH.validateActionableConfig_isErr]
  · intro registrations
    unfold YEH.constructModel
    cases h : YEH.validateConfiguration em cfg <;> simp [YEH.isErrN, YEH.isErr]
